import Mathlib

/-!
Shallow embedding of the cocoman/cocoregman regression-orchestration core
(src/src/cocoregman/core/{orchestrator,runbook,validation}.py) together with
theorems checking the natural-language specification against it.

Modelling conventions:
* Python `dict`s are insertion-ordered association lists (`List (k × v)`);
  the dictionaries produced by YAML parsing have unique keys.
* Python heterogeneous values (`Any`) in build/test argument maps are the
  closed variant `PyVal`.
* `pathlib.Path` values are represented by their string form.
* User-supplied regular-expression patterns are modelled as compiled regex
  ASTs (`Regex`); `re.fullmatch` is the whole-string derivative matcher
  `Regex.fullmatch`.  `Regex.lit s` is the compiled form of a pattern string
  containing no metacharacters (such as `"foo"`).
* External collaborators (cocotb's runner, the dynamic test-discovery import,
  the filesystem) enter as explicit parameters: a `discover` function, the
  backend's build directory, a `FileSystem` record of predicates, and the
  `argspec` name list that `inspect.getfullargspec` would return for a
  backend stage.
* Side effects of execution/preview are reified as `SimEvent` traces;
  exceptions are `Except` errors whose payloads carry the data interpolated
  into the Python exception message.
-/

namespace Cocoman

/-! ### Regular expressions (model of Python `re.fullmatch`)

Brzozowski-derivative matcher.  `fullmatch r s` is true iff the WHOLE string
`s` is in the language of `r`, matching the semantics of `re.fullmatch`
(which anchors at both ends, unlike `re.search`). -/

inductive Regex where
  | emptyset : Regex
  | epsilon : Regex
  | char : Char → Regex
  | anychar : Regex
  | concat : Regex → Regex → Regex
  | alt : Regex → Regex → Regex
  | star : Regex → Regex
deriving DecidableEq, Repr

namespace Regex

/-- Whether the regex accepts the empty string. -/
def nullable : Regex → Bool
  | emptyset => false
  | epsilon => true
  | char _ => false
  | anychar => false
  | concat r s => nullable r && nullable s
  | alt r s => nullable r || nullable s
  | star _ => true

/-- Brzozowski derivative of a regex with respect to one character. -/
def deriv : Regex → Char → Regex
  | emptyset, _ => emptyset
  | epsilon, _ => emptyset
  | char c, a => if a = c then epsilon else emptyset
  | anychar, _ => epsilon
  | concat r s, a =>
      if r.nullable then alt (concat (deriv r a) s) (deriv s a)
      else concat (deriv r a) s
  | alt r s, a => alt (deriv r a) (deriv s a)
  | star r, a => concat (deriv r a) (star r)

/-- Match a whole character list against a regex. -/
def matchList (r : Regex) : List Char → Bool
  | [] => r.nullable
  | c :: cs => (r.deriv c).matchList cs

/-- Model of `re.fullmatch(r, s) is not None`: whole-string matching. -/
def fullmatch (r : Regex) (s : String) : Bool := r.matchList s.data

/-- Compiled form of a pattern string with no regex metacharacters: the
literal concatenation of its characters. -/
def lit (s : String) : Regex :=
  s.data.foldr (fun c acc => concat (char c) acc) epsilon

end Regex

/-- Model of `orchestrator._match_regexs`: true iff the text fully matches
any of the provided patterns (`any(re_fullmatch(rgx, text) for rgx in regexs)`). -/
def matchRegexs (text : String) (regexs : List Regex) : Bool :=
  regexs.any (fun rgx => rgx.fullmatch text)

/-! ### Data model -/

/-- Closed variant covering the heterogeneous values stored in the
build/test argument maps (`Dict[str, Any]`). -/
inductive PyVal where
  | str : String → PyVal
  | int : Int → PyVal
  | bool : Bool → PyVal
  | path : String → PyVal
deriving DecidableEq, Repr

/-- Model of `core.runbook.Testbench` (dataclass): one verification unit.
Paths are strings; `srcs` holds source-table indices. -/
structure Testbench where
  build_args : List (String × PyVal) := []
  hdl : String := ""
  path : String := ""
  rtl_top : String := ""
  srcs : List Int := []
  tags : List String := []
  tb_top : String := ""
  test_args : List (String × PyVal) := []
deriving DecidableEq, Repr

/-- Model of `core.runbook.Runbook` (dataclass): the validated root
aggregate.  `tbs` and `srcs` are insertion-ordered association lists with
unique keys (Python dicts). -/
structure Runbook where
  build_args : List (String × PyVal) := []
  «include» : List String := []
  sim : String := ""
  srcs : List (Int × String) := []
  tbs : List (String × Testbench) := []
  test_args : List (String × PyVal) := []
  title : String := ""
deriving DecidableEq, Repr

/-- Model of `Runbook.__contains__`: key membership in the testbench table. -/
def Runbook.containsTb (rb : Runbook) (name : String) : Bool :=
  rb.tbs.any (fun p => p.1 = name)

/-- Model of `orchestrator.ExecutionPlan` (dataclass).  The orchestrator
always constructs plans with an actual runbook, so the dataclass default
`runbook=None` is not represented. -/
structure ExecutionPlan where
  runbook : Runbook
  tb_name : String := ""
  tests : List String := []
deriving DecidableEq, Repr

/-- Model of Python `str.lower` on the ASCII strings used for attribute
names (`String` in this Lean version is a structure over `List Char`). -/
def str_lower (s : String) : String := ⟨s.data.map Char.toLower⟩

/-- Model of `orchestrator.Filtering` (dataclass): filter criteria.  The
pattern lists hold compiled regexes (see module header). -/
structure Filtering where
  tb_names : List String := []
  include_tests : List Regex := []
  exclude_tests : List Regex := []
  include_tags : List Regex := []
  exclude_tags : List Regex := []
deriving DecidableEq, Repr

/-- Inclusion pattern list selected by `get_valid` for a lowercased
attribute (`self.include_tags if attr == "tags" else self.include_tests`). -/
def Filtering.inclusionFor (f : Filtering) (attrL : String) : List Regex :=
  if attrL = "tags" then f.include_tags else f.include_tests

/-- Exclusion pattern list selected by `get_valid` for a lowercased
attribute (`self.exclude_tags if attr == "tags" else self.exclude_tests`). -/
def Filtering.exclusionFor (f : Filtering) (attrL : String) : List Regex :=
  if attrL = "tags" then f.exclude_tags else f.exclude_tests

/-- Model of `Filtering.get_valid`.  Lowers the attribute, raises
`ValueError` (the error payload is the lowercased attribute interpolated
into the message) unless it is `"tags"` or `"tests"`, then applies the
inclusion filter when the inclusion list is non-empty and afterwards the
exclusion filter when the exclusion list is non-empty. -/
def Filtering.get_valid (f : Filtering) (attr : String) (dataset : List String) :
    Except String (List String) :=
  let attrL := str_lower attr
  if attrL = "tags" ∨ attrL = "tests" then
    let inclusion := f.inclusionFor attrL
    let exclusion := f.exclusionFor attrL
    let valid := dataset
    let valid := if inclusion.isEmpty then valid
      else valid.filter (fun i => matchRegexs i inclusion)
    let valid := if exclusion.isEmpty then valid
      else valid.filter (fun i => !matchRegexs i exclusion)
    .ok valid
  else
    .error attrL

/-! ### Orchestrator — plan building (`Orchestrator.build_plan`)

Exceptions a plan-building run can surface are reified in `PlanError`;
`load_n_import_tb`/`get_test_names` (dynamic import and introspection,
external collaborators) are abstracted as a `discover` function from a
testbench to its ordered test-identifier list or an import failure.
`load_includes` only mutates the process-wide include registry and does not
affect the returned plan list, so it does not appear here. -/

inductive PlanError where
  /-- An uncaught `ValueError` escaping `Filtering.get_valid`. -/
  | valueError (attr : String)
  /-- A `KeyError` from `rbook.tbs[name]`. -/
  | keyError (name : String)
  /-- A test-discovery import failure (`TbEnvImportError`). -/
  | importError (msg : String)
deriving DecidableEq, Repr

/-- First loop of `build_plan`: for each candidate name, look up its
testbench, drop it when the tag filter leaves no tag
(`if not criteria.get_valid("tags", tb_info.tags): continue`), and emit an
`ExecutionPlan` with an empty test list otherwise, preserving order. -/
def tagPass (rbook : Runbook) (criteria : Filtering) :
    List String → Except PlanError (List ExecutionPlan)
  | [] => .ok []
  | name :: rest =>
    match rbook.tbs.lookup name with
    | none => .error (.keyError name)
    | some tb_info =>
      match criteria.get_valid "tags" tb_info.tags with
      | .error attr => .error (.valueError attr)
      | .ok tags =>
        match tagPass rbook criteria rest with
        | .error e => .error e
        | .ok plans =>
          if tags.isEmpty then .ok plans
          else .ok ({ runbook := rbook, tb_name := name } :: plans)

/-- Second loop of `build_plan`: discover each surviving testbench's tests
and store the test filter's selection in the plan (`plan.tests =
criteria.get_valid("tests", all_tests)`). -/
def fillTests (rbook : Runbook) (criteria : Filtering)
    (discover : Testbench → Except String (List String)) :
    List ExecutionPlan → Except PlanError (List ExecutionPlan)
  | [] => .ok []
  | plan :: rest =>
    match rbook.tbs.lookup plan.tb_name with
    | none => .error (.keyError plan.tb_name)
    | some tb_info =>
      match discover tb_info with
      | .error msg => .error (.importError msg)
      | .ok all_tests =>
        match criteria.get_valid "tests" all_tests with
        | .error attr => .error (.valueError attr)
        | .ok tests =>
          match fillTests rbook criteria discover rest with
          | .error e => .error e
          | .ok rest' => .ok ({ plan with tests := tests } :: rest')

/-- Model of `Orchestrator.build_plan`.  Candidate names are the explicit
`criteria.tb_names` filtered by runbook membership when that list is
non-empty (`[t for t in criteria.tb_names if t in rbook]`), otherwise every
testbench name; returns `[]` early when no candidate survives the tag
filter. -/
def build_plan (rbook : Runbook) (criteria : Filtering)
    (discover : Testbench → Except String (List String)) :
    Except PlanError (List ExecutionPlan) :=
  let valid_tbs :=
    if criteria.tb_names.isEmpty then rbook.tbs.map Prod.fst
    else criteria.tb_names.filter rbook.containsTb
  match tagPass rbook criteria valid_tbs with
  | .error e => .error e
  | .ok plans =>
    if plans.isEmpty then .ok []
    else fillTests rbook criteria discover plans

/-! ### Orchestrator — execution and preview -/

/-- Reified effects of `run_regression`/`print_regression`: calls into the
simulation backend and `load_includes`, and console output (rich markup
stripped to the printed text). -/
inductive SimEvent where
  /-- A `load_includes(rb)` call. -/
  | loadIncludes (rbook : Runbook)
  /-- A `get_runner(rb.sim)` call. -/
  | getRunner (sim : String)
  /-- A `sim.build(sources=…, hdl_toplevel=…, always=True, **b_args)` call. -/
  | build (sources : List String) (hdl_toplevel : String) (always : Bool)
      (b_args : List (String × PyVal))
  /-- A `sim.test(hdl_toplevel=…, hdl_toplevel_lang=…, test_module=…,
  testcase=…, results_xml=…, **t_args)` call. -/
  | test (hdl_toplevel : String) (hdl_toplevel_lang : String)
      (test_module : String) (testcase : List String) (results_xml : PyVal)
      (t_args : List (String × PyVal))
  /-- A `console.rule(…)` line. -/
  | consoleRule (text : String)
  /-- A `console.print(…)` line. -/
  | consolePrint (text : String)
deriving DecidableEq, Repr

/-- Whether an event is console output (as opposed to a backend or
include-registry interaction). -/
def SimEvent.isConsole : SimEvent → Bool
  | .consoleRule _ => true
  | .consolePrint _ => true
  | _ => false

/-- Whether an event is a backend `build` invocation. -/
def SimEvent.isBuild : SimEvent → Bool
  | .build _ _ _ _ => true
  | _ => false

/-- Whether an event is a backend `test` invocation. -/
def SimEvent.isTest : SimEvent → Bool
  | .test _ _ _ _ _ _ => true
  | _ => false

/-- The `testcase` list of a backend `test` event, if any. -/
def SimEvent.testcaseOf : SimEvent → Option (List String)
  | .test _ _ _ tc _ _ => some tc
  | _ => none

/-- Model of the Python dict merge `{**a, **b}` on association lists with
unique keys: keys of `a` in order (values overridden by `b` where present),
then keys of `b` not in `a`, in order. -/
def dictMerge (a b : List (String × PyVal)) : List (String × PyVal) :=
  a.map (fun p => (p.1, (b.lookup p.1).getD p.2))
    ++ b.filter (fun p => (a.lookup p.1).isNone)

/-- Model of the comprehension `[i for i in tests for _ in range(n_times)]`
used by both `run_regression` and `print_regression`. -/
def expandTests (tests : List String) (n_times : Nat) : List String :=
  tests.flatMap (fun i => (List.range n_times).map (fun _ => i))

/-- Events of one `run_regression` loop iteration.  `buildDir` stands for
the external backend handle's `sim.build_dir` (used only for the default
results-file path `Path(sim.build_dir, f"{tb_name}_results.xml")`). -/
def runStep (buildDir : String) (n_times : Nat) (previous_rb : Option Runbook)
    (plan : ExecutionPlan) : Except PlanError (List SimEvent) :=
  match plan.runbook.tbs.lookup plan.tb_name with
  | none => .error (.keyError plan.tb_name)
  | some tb =>
    let rb := plan.runbook
    let pre := if previous_rb = some rb then ([] : List SimEvent)
      else [SimEvent.loadIncludes rb, SimEvent.getRunner rb.sim]
    let srcs := (rb.srcs.filter (fun p => tb.srcs.contains p.1)).map Prod.snd
    let b_args := dictMerge rb.build_args tb.build_args
    let t_args := dictMerge rb.test_args tb.test_args
    let res_xml := (t_args.lookup "results_xml").getD
      (.path (buildDir ++ "/" ++ plan.tb_name ++ "_results.xml"))
    .ok (pre ++
      [SimEvent.build srcs tb.rtl_top true b_args,
       SimEvent.test tb.rtl_top tb.hdl tb.tb_top
         (expandTests plan.tests n_times) res_xml t_args])

/-- The `for plan in self.regression_plan` loop of `run_regression`,
threading `previous_rb`. -/
def runLoop (buildDir : String) (n_times : Nat) :
    List ExecutionPlan → Option Runbook → Except PlanError (List SimEvent)
  | [], _ => .ok []
  | plan :: rest, prev =>
    match runStep buildDir n_times prev plan with
    | .error e => .error e
    | .ok evs =>
      match runLoop buildDir n_times rest (some plan.runbook) with
      | .error e => .error e
      | .ok evs' => .ok (evs ++ evs')

/-- Model of `Orchestrator.run_regression`: returns the trace of backend
interactions (`if not self.regression_plan: return` short-circuits the empty
plan; `previous_rb` starts as `None`). -/
def run_regression (regression_plan : List ExecutionPlan) (n_times : Nat)
    (buildDir : String) : Except PlanError (List SimEvent) :=
  if regression_plan.isEmpty then .ok []
  else runLoop buildDir n_times regression_plan none

/-- Model of `Orchestrator.print_regression` (dry run): a pure console
trace.  Rich markup is stripped; each entry contributes a rule line with its
testbench name followed by either the comma-joined expanded test list or
"No tests to run". -/
def print_regression (regression_plan : List ExecutionPlan) (n_times : Nat) :
    List SimEvent :=
  if regression_plan.isEmpty then [SimEvent.consolePrint "No testbenches to run"]
  else
    SimEvent.consolePrint "DRY RUN" ::
      regression_plan.flatMap (fun plan =>
        let tests := expandTests plan.tests n_times
        SimEvent.consoleRule plan.tb_name ::
          (if tests.isEmpty then [SimEvent.consolePrint "No tests to run"]
           else [SimEvent.consolePrint (String.intercalate ", " tests)]))

/-! ### Stage-argument validation (`validate_stages_args` /
`runbook._validate_stages_args`)

The legal-key set is derived by reflection in the source
(`getfullargspec(sim_method).args` for `Simulator.build`/`Simulator.test`,
an external collaborator); it enters the model as the `argspec` name list,
from which the reserved internally-managed names are removed. -/

/-- The reserved argument names removed from any stage's argspec (the
`ignored` set of `validate_stages_args`). -/
def ignoredStageArgs : List String :=
  ["self", "verilog_sources", "vhdl_sources", "sources", "hdl_toplevel",
   "test_module", "hdl_toplevel_lang", "testcase", "always", "timescale"]

/-- The legal key list for a stage:
`[arg for arg in getfullargspec(sim_method).args if arg not in ignored]`. -/
def validArgsOf (argspec : List String) : List String :=
  argspec.filter (fun a => !ignoredStageArgs.contains a)

/-- Payload of the `RbValidationError` raised by `validate_stages_args`:
the message interpolates one offending key, the stage method's name and the
full allowed list. -/
structure StageArgError where
  key : String
  method_name : String
  allowed : List String
deriving DecidableEq, Repr

/-- Model of `validate_stages_args` / `_validate_stages_args`: scan the
map's keys in iteration order and raise on the first one outside the legal
set (`for key in args: if key not in valid_args: raise …`). -/
def validate_stages_args (args : List (String × PyVal)) (method_name : String)
    (argspec : List String) : Except StageArgError Unit :=
  match (args.map Prod.fst).find? (fun k => !(validArgsOf argspec).contains k) with
  | some key =>
    .error { key := key, method_name := method_name, allowed := validArgsOf argspec }
  | none => .ok ()

/-! ### Path validation (`validate_paths` / `runbook._validate_paths`)

The expansion/resolution pass (`expanduser`/`expandvars` plus anchoring at
the YAML file's directory) is environment-dependent; the claims under check
concern the existence/registration check phase, which operates on the
already-resolved dictionary.  The filesystem enters as a record of
predicates. -/

/-- Filesystem oracle for the existence checks (`Path.is_file`,
`Path.is_dir`, `Path.exists`). -/
structure FileSystem where
  isFile : String → Bool
  isDir : String → Bool
  pathExists : String → Bool

/-- Payload of the `RbValidationError` raised by the check phase of
`_validate_paths`: either the batched list of non-existent paths or the
testbench-name → unregistered-index map. -/
inductive PathsError where
  | nonExistent (paths : List String)
  | unregistered (report : List (String × List Int))
deriving DecidableEq, Repr

/-- The `x_non_exist` list of `_validate_paths`: non-file source paths (in
table order), then non-directory testbench paths (in table order), then
non-existent include paths. -/
def nonExistentPaths (fs : FileSystem) (srcs : List (Int × String))
    (tbs : List (String × Testbench)) (includeDirs : List String) : List String :=
  (srcs.filter (fun p => !fs.isFile p.2)).map Prod.snd
    ++ (tbs.filter (fun p => !fs.isDir p.2.path)).map (fun p => p.2.path)
    ++ includeDirs.filter (fun p => !fs.pathExists p)

/-- The `x_non_reg` map of `_validate_paths`: each testbench whose `srcs`
list mentions indices missing from the source table, mapped to the complete
list of those indices, in table order. -/
def unregisteredReport (srcs : List (Int × String))
    (tbs : List (String × Testbench)) : List (String × List Int) :=
  tbs.filterMap (fun p =>
    if (p.2.srcs.filter (fun i => !(srcs.map Prod.fst).contains i)).isEmpty then none
    else some (p.1, p.2.srcs.filter (fun i => !(srcs.map Prod.fst).contains i)))

/-- Model of the check phase of `_validate_paths` (source lines 216–236):
collect non-existent paths and unregistered index references, raising the
non-existent-paths error first when both sets are non-empty. -/
def validate_paths_check (fs : FileSystem) (srcs : List (Int × String))
    (tbs : List (String × Testbench)) (includeDirs : List String) :
    Except PathsError Unit :=
  if !(nonExistentPaths fs srcs tbs includeDirs).isEmpty then
    .error (.nonExistent (nonExistentPaths fs srcs tbs includeDirs))
  else if !(unregisteredReport srcs tbs).isEmpty then
    .error (.unregistered (unregisteredReport srcs tbs))
  else .ok ()

/-- Union of the validation failures `Runbook.load_yaml` can raise after
parsing (all rendered as `RbValidationError` in the source). -/
inductive LoadError where
  | paths (e : PathsError)
  | stageArgs (e : StageArgError)
deriving DecidableEq, Repr

/-- The per-testbench stage-argument loop of `load_yaml`
(`for _, tb_info in rb_dict["tbs"].items(): _validate_stages_args(…)`),
test arguments first, then build arguments, per testbench in table order. -/
def validateTbsArgs (buildArgspec testArgspec : List String) :
    List (String × Testbench) → Except StageArgError Unit
  | [] => .ok ()
  | (_, tb) :: rest =>
    match validate_stages_args tb.test_args "test" testArgspec with
    | .error e => .error e
    | .ok _ =>
      match validate_stages_args tb.build_args "build" buildArgspec with
      | .error e => .error e
      | .ok _ => validateTbsArgs buildArgspec testArgspec rest

/-- Model of the validation-and-construction tail of `Runbook.load_yaml`
over the already-resolved document: path checks, then global stage-argument
checks (test then build), then per-testbench stage-argument checks, and
finally construction of the `Runbook`.  The testbench records of the
resolved document are modelled directly as `Testbench` values (the source's
construction copies the dictionary fields one-to-one). -/
def load_runbook (fs : FileSystem) (title sim : String)
    (build_args test_args : List (String × PyVal)) (srcs : List (Int × String))
    (tbs : List (String × Testbench)) (includeDirs : List String)
    (buildArgspec testArgspec : List String) : Except LoadError Runbook :=
  match validate_paths_check fs srcs tbs includeDirs with
  | .error e => .error (.paths e)
  | .ok _ =>
    match validate_stages_args test_args "test" testArgspec with
    | .error e => .error (.stageArgs e)
    | .ok _ =>
      match validate_stages_args build_args "build" buildArgspec with
      | .error e => .error (.stageArgs e)
      | .ok _ =>
        match validateTbsArgs buildArgspec testArgspec tbs with
        | .error e => .error (.stageArgs e)
        | .ok _ =>
          .ok { title := title, sim := sim, srcs := srcs, «include» := includeDirs,
                test_args := test_args, build_args := build_args, tbs := tbs }

/-! ### Concrete instances used by the claim theorems -/

/-- Representative argspec of the external backend's build stage
(`getfullargspec(Simulator.build).args` for cocotb's runner). -/
def cocotbBuildArgspec : List String :=
  ["self", "library_name", "verilog_sources", "vhdl_sources", "sources",
   "includes", "defines", "parameters", "build_args", "hdl_toplevel",
   "always", "build_dir", "clean", "verbose", "timescale", "waves", "log_file"]

/-- Runbook containing only the testbench `tbA`, for the C1 scenario. -/
def rbC1 : Runbook :=
  { sim := "icarus",
    tbs := [("tbA", { hdl := "verilog", path := "/dir_tbA", rtl_top := "top",
                      tb_top := "tb_top" })] }

/-- Runbook for the C4 scenario. -/
def rbC4 : Runbook :=
  { sim := "icarus",
    tbs := [("tbA", { hdl := "verilog", path := "/dir_tbA", rtl_top := "top",
                      tb_top := "tb_top" })] }

/-- Plan entry with an empty selected test list, for the C4 scenario. -/
def planC4 : ExecutionPlan := { runbook := rbC4, tb_name := "tbA", tests := [] }

/-- Runbook for the C7 witness. -/
def rbC7 : Runbook :=
  { sim := "icarus",
    tbs := [("tbA", { hdl := "verilog", path := "/dir_tbA", rtl_top := "top",
                      tb_top := "tb_top" })] }

/-- Plan entry with one selected test, for the C7 witness. -/
def planC7 : ExecutionPlan := { runbook := rbC7, tb_name := "tbA", tests := ["t1"] }

/-! ### Auxiliary lemmas and claim theorems -/

/-- A text matching some pattern of a list forces the list non-empty. -/
theorem matchRegexs_ne_nil {x : String} {l : List Regex}
    (h : matchRegexs x l = true) : l ≠ [] := by
  intro hnil; subst hnil; simp [matchRegexs] at h

/-- A successful `get_valid` call implies the lowercased attribute is
`tags` or `tests`. -/
theorem get_valid_ok_attr {f : Filtering} {attr : String} {ds res : List String}
    (h : f.get_valid attr ds = .ok res) :
    str_lower attr = "tags" ∨ str_lower attr = "tests" := by
  by_cases hc : str_lower attr = "tags" ∨ str_lower attr = "tests"
  · exact hc
  · unfold Filtering.get_valid at h
    rw [if_neg hc] at h
    exact absurd h (by simp)

/-- Membership in a successful `get_valid` result: the element comes from
the dataset, matches some include pattern when the include list is
non-empty, and matches no exclude pattern when the exclude list is
non-empty. -/
theorem get_valid_ok_mem {f : Filtering} {attr : String} {ds res : List String}
    (h : f.get_valid attr ds = .ok res) (x : String) :
    x ∈ res ↔ x ∈ ds ∧
      (f.inclusionFor (str_lower attr) ≠ [] →
        matchRegexs x (f.inclusionFor (str_lower attr)) = true) ∧
      (f.exclusionFor (str_lower attr) ≠ [] →
        matchRegexs x (f.exclusionFor (str_lower attr)) = false) := by
  have hc := get_valid_ok_attr h
  unfold Filtering.get_valid at h
  rw [if_pos hc] at h
  by_cases hi : (f.inclusionFor (str_lower attr)).isEmpty
  · have hi' : f.inclusionFor (str_lower attr) = [] := by
      simpa [List.isEmpty_iff] using hi
    by_cases he : (f.exclusionFor (str_lower attr)).isEmpty
    · have he' : f.exclusionFor (str_lower attr) = [] := by
        simpa [List.isEmpty_iff] using he
      simp only [hi, he, if_true] at h
      obtain rfl : ds = res := by simpa using h
      simp [hi', he']
    · have hene : f.exclusionFor (str_lower attr) ≠ [] := by
        simpa [List.isEmpty_iff] using he
      simp only [hi, he, if_true, if_false, Bool.false_eq_true] at h
      obtain rfl : ds.filter (fun i => !matchRegexs i (f.exclusionFor (str_lower attr))) = res := by
        simpa using h
      simp [hi', List.mem_filter, hene]
  · have hine : f.inclusionFor (str_lower attr) ≠ [] := by
      simpa [List.isEmpty_iff] using hi
    by_cases he : (f.exclusionFor (str_lower attr)).isEmpty
    · have he' : f.exclusionFor (str_lower attr) = [] := by
        simpa [List.isEmpty_iff] using he
      simp only [hi, he, if_true, if_false, Bool.false_eq_true] at h
      obtain rfl : ds.filter (fun i => matchRegexs i (f.inclusionFor (str_lower attr))) = res := by
        simpa using h
      simp [he', List.mem_filter, hine]
    · have hene : f.exclusionFor (str_lower attr) ≠ [] := by
        simpa [List.isEmpty_iff] using he
      simp only [hi, he, if_false, Bool.false_eq_true] at h
      obtain rfl : (ds.filter (fun i => matchRegexs i (f.inclusionFor (str_lower attr)))).filter
          (fun i => !matchRegexs i (f.exclusionFor (str_lower attr))) = res := by
        simpa using h
      simp only [List.mem_filter]
      constructor
      · rintro ⟨⟨hds, hinc⟩, hexc⟩
        exact ⟨hds, fun _ => hinc, fun _ => by simpa using hexc⟩
      · rintro ⟨hds, hinc, hexc⟩
        exact ⟨⟨hds, hinc hine⟩, by simpa using hexc hene⟩

/-- Claim C5: with a non-empty include list, a candidate is kept by
`get_valid` only if it fully matches (whole string, never substring) some
include pattern; concretely, include list `[foo]` selects `foo` but not
`foobar`, and exclude list `[foo]` removes `foo` but not `foobar`. -/
theorem c5_whole_string_matching :
    (∀ (f : Filtering) (attr : String) (ds res : List String) (x : String),
      f.get_valid attr ds = .ok res → x ∈ res →
      f.inclusionFor (str_lower attr) ≠ [] →
      matchRegexs x (f.inclusionFor (str_lower attr)) = true)
    ∧ Filtering.get_valid { include_tests := [Regex.lit "foo"] } "tests"
        ["foo", "foobar"] = .ok ["foo"]
    ∧ Filtering.get_valid { exclude_tests := [Regex.lit "foo"] } "tests"
        ["foo", "foobar"] = .ok ["foobar"] := by
  refine ⟨?_, rfl, rfl⟩
  intro f attr ds res x h hx hne
  exact (((get_valid_ok_mem h x).mp hx).2.1) hne

/-- Witness for C5 at the concrete include list `[foo]` and candidate
`foo`. -/
theorem c5_witness :
    matchRegexs "foo"
      (Filtering.inclusionFor { include_tests := [Regex.lit "foo"] } (str_lower "tests")) = true :=
  c5_whole_string_matching.1 _ "tests" ["foo", "foobar"] ["foo"] "foo" rfl
    (by simp) (by simp [Filtering.inclusionFor, str_lower])

/-- Claim C6: inclusion is applied before exclusion in `get_valid`: a
candidate fully matching both an include pattern and an exclude pattern of
the selected attribute is absent from the result. -/
theorem c6_exclusion_after_inclusion :
    ∀ (f : Filtering) (attr : String) (ds res : List String) (x : String),
      f.get_valid attr ds = .ok res →
      matchRegexs x (f.inclusionFor (str_lower attr)) = true →
      matchRegexs x (f.exclusionFor (str_lower attr)) = true →
      x ∉ res := by
  intro f attr ds res x h _hinc hexc hx
  have hne : f.exclusionFor (str_lower attr) ≠ [] := matchRegexs_ne_nil hexc
  have := (((get_valid_ok_mem h x).mp hx).2.2) hne
  rw [hexc] at this
  exact absurd this (by simp)

/-- Witness for C6: with include patterns `[a, b]` and exclude pattern
`[a]`, the candidate `a` is excluded from the result `[b]`. -/
theorem c6_witness :
    "a" ∉ (["b"] : List String) :=
  c6_exclusion_after_inclusion
    { include_tests := [Regex.lit "a", Regex.lit "b"], exclude_tests := [Regex.lit "a"] }
    "tests" ["a", "b"] ["b"] "a" rfl (by decide) (by decide)

/-- Claim C8: filtering is idempotent: feeding the successful result of
`get_valid` back through the same criteria and attribute returns it
unchanged. -/
theorem c8_filtering_idempotent :
    ∀ (f : Filtering) (attr : String) (ds res : List String),
      f.get_valid attr ds = .ok res → f.get_valid attr res = .ok res := by
  intro f attr ds res h
  have hc := get_valid_ok_attr h
  have hmem := get_valid_ok_mem h
  unfold Filtering.get_valid
  rw [if_pos hc]
  by_cases hi : (f.inclusionFor (str_lower attr)).isEmpty
  · by_cases he : (f.exclusionFor (str_lower attr)).isEmpty
    · simp [hi, he]
    · have hene : f.exclusionFor (str_lower attr) ≠ [] := by
        simpa [List.isEmpty_iff] using he
      simp only [hi, he, if_true, if_false, Bool.false_eq_true]
      congr 1
      rw [List.filter_eq_self]
      intro x hx
      have := (((hmem x).mp hx).2.2) hene
      simpa using this
  · have hine : f.inclusionFor (str_lower attr) ≠ [] := by
      simpa [List.isEmpty_iff] using hi
    by_cases he : (f.exclusionFor (str_lower attr)).isEmpty
    · simp only [hi, he, if_true, if_false, Bool.false_eq_true]
      congr 1
      rw [List.filter_eq_self]
      intro x hx
      exact (((hmem x).mp hx).2.1) hine
    · have hene : f.exclusionFor (str_lower attr) ≠ [] := by
        simpa [List.isEmpty_iff] using he
      simp only [hi, he, if_false, Bool.false_eq_true]
      congr 1
      have h1 : res.filter (fun i => matchRegexs i (f.inclusionFor (str_lower attr))) = res :=
        List.filter_eq_self.mpr (fun x hx => (((hmem x).mp hx).2.1) hine)
      rw [h1, List.filter_eq_self]
      intro x hx
      have := (((hmem x).mp hx).2.2) hene
      simpa using this

/-- Witness for C8 at include list `[a]` over the dataset `[a, ab]`. -/
theorem c8_witness :
    Filtering.get_valid { include_tests := [Regex.lit "a"] } "tests" ["a"] = .ok ["a"] :=
  c8_filtering_idempotent { include_tests := [Regex.lit "a"] } "tests" ["a", "ab"] ["a"] rfl

/-- Claim C10: `get_valid` raises `ValueError` exactly when the lowercased
attribute is neither `tags` nor `tests`; any case variant of those two is
accepted and filters identically to its lowercase form. -/
theorem c10_attr_case_insensitive :
    ∀ (f : Filtering) (attr : String) (ds : List String),
      ((f.get_valid attr ds).isOk
        = (decide (str_lower attr = "tags") || decide (str_lower attr = "tests")))
      ∧ (¬ (str_lower attr = "tags" ∨ str_lower attr = "tests") →
          f.get_valid attr ds = .error (str_lower attr))
      ∧ (str_lower attr = "tags" → f.get_valid attr ds = f.get_valid "tags" ds)
      ∧ (str_lower attr = "tests" → f.get_valid attr ds = f.get_valid "tests" ds) := by
  intro f attr ds
  have hlt : str_lower "tags" = "tags" := by decide
  have hlts : str_lower "tests" = "tests" := by decide
  refine ⟨?_, ?_, ?_, ?_⟩
  · by_cases hc : str_lower attr = "tags" ∨ str_lower attr = "tests"
    · unfold Filtering.get_valid
      rw [if_pos hc]
      rcases hc with hc | hc <;> simp [hc, Except.isOk, Except.toBool]
    · unfold Filtering.get_valid
      rw [if_neg hc]
      push_neg at hc
      simp [Except.isOk, Except.toBool, hc.1, hc.2]
  · intro hc
    unfold Filtering.get_valid
    rw [if_neg hc]
  · intro hc
    unfold Filtering.get_valid
    rw [hlt, hc]
  · intro hc
    unfold Filtering.get_valid
    rw [hlts, hc]

/-- Witness for C10 at the case-variant attribute `TAGS`. -/
theorem c10_witness :
    Filtering.get_valid { include_tags := [Regex.lit "smoke"] } "TAGS" ["smoke", "slow"]
      = Filtering.get_valid { include_tags := [Regex.lit "smoke"] } "tags" ["smoke", "slow"] :=
  (c10_attr_case_insensitive { include_tags := [Regex.lit "smoke"] } "TAGS"
    ["smoke", "slow"]).2.2.1 (by decide)

/-- One `run_regression` iteration emits exactly one testcase list: the
expansion of the entry's tests. -/
theorem runStep_testcases {bd : String} {n : Nat} {prev : Option Runbook}
    {plan : ExecutionPlan} {evs : List SimEvent}
    (h : runStep bd n prev plan = .ok evs) :
    evs.filterMap SimEvent.testcaseOf = [expandTests plan.tests n] := by
  unfold runStep at h
  split at h
  · exact absurd h (by simp)
  · simp only [] at h
    have hevs := (Except.ok.injEq _ _).mp h
    rw [← hevs]
    by_cases hp : prev = some plan.runbook <;>
      simp [hp, SimEvent.testcaseOf]

/-- The testcase lists of a successful `run_regression` loop are the
per-entry expansions, in plan order. -/
theorem runLoop_testcases (bd : String) (n : Nat) (plans : List ExecutionPlan) :
    ∀ (prev : Option Runbook) (trace : List SimEvent),
      runLoop bd n plans prev = .ok trace →
      trace.filterMap SimEvent.testcaseOf = plans.map (fun p => expandTests p.tests n) := by
  induction plans with
  | nil =>
    intro prev trace h
    simp only [runLoop] at h
    have : trace = [] := ((Except.ok.injEq _ _).mp h).symm
    simp [this]
  | cons plan rest ih =>
    intro prev trace h
    unfold runLoop at h
    cases hstep : runStep bd n prev plan with
    | error e => rw [hstep] at h; exact absurd h (by simp)
    | ok evs =>
      rw [hstep] at h
      cases hrest : runLoop bd n rest (some plan.runbook) with
      | error e => rw [hrest] at h; exact absurd h (by simp)
      | ok evs' =>
        rw [hrest] at h
        have htr : evs ++ evs' = trace := (Except.ok.injEq _ _).mp h
        rw [← htr, List.filterMap_append, runStep_testcases hstep, ih _ _ hrest]
        simp

/-- Mapping a constant over `range n` yields `n` copies. -/
theorem range_map_const (i : String) (n : Nat) :
    (List.range n).map (fun _ => i) = List.replicate n i := by
  induction n with
  | zero => simp
  | succ m ih => simp [List.range_succ, List.replicate_succ', ih]

/-- Claim C7: the expansion `[i for i in tests for _ in range(n_times)]`
repeats each identifier of the selected test list exactly N consecutive
times preserving order (for N = 3 and `[a, b]` it is `[a, a, a, b, b, b]`);
the testcase lists passed to the backend by `run_regression` are exactly
the per-entry expansions, and the dry-run preview prints the same expanded
list. -/
theorem c7_repetition_expansion :
    (∀ (tests : List String) (n : Nat),
      expandTests tests n = tests.flatMap (fun t => List.replicate n t))
    ∧ expandTests ["a", "b"] 3 = ["a", "a", "a", "b", "b", "b"]
    ∧ (∀ (plans : List ExecutionPlan) (n : Nat) (bd : String) (trace : List SimEvent),
        run_regression plans n bd = .ok trace →
        trace.filterMap SimEvent.testcaseOf = plans.map (fun p => expandTests p.tests n))
    ∧ (∀ (plans : List ExecutionPlan) (n : Nat) (p : ExecutionPlan),
        p ∈ plans → expandTests p.tests n ≠ [] →
        SimEvent.consolePrint (String.intercalate ", " (expandTests p.tests n))
          ∈ print_regression plans n) := by
  refine ⟨?_, rfl, ?_, ?_⟩
  · intro tests n
    unfold expandTests
    congr 1
    funext i
    exact range_map_const i n
  · intro plans n bd trace h
    unfold run_regression at h
    by_cases hp : plans.isEmpty
    · have hpl : plans = [] := by rwa [List.isEmpty_iff] at hp
      simp only [hp, if_true] at h
      have : trace = [] := ((Except.ok.injEq _ _).mp h).symm
      simp [hpl, this]
    · rw [Bool.not_eq_true] at hp
      simp only [hp, Bool.false_eq_true, if_false] at h
      exact runLoop_testcases bd n plans none trace h
  · intro plans n p hp hne
    unfold print_regression
    have hpe : plans.isEmpty = false := by
      rcases plans with _ | ⟨q, qs⟩
      · simp at hp
      · simp
    simp only [hpe, Bool.false_eq_true, if_false]
    refine List.mem_cons_of_mem _ (List.mem_flatMap.mpr ⟨p, hp, ?_⟩)
    refine List.mem_cons_of_mem _ ?_
    rw [if_neg ?_]
    · simp
    · rw [List.isEmpty_iff]
      exact hne

/-- Claim C9: the dry-run preview `print_regression` emits only console
output (never a backend build/test invocation, a runner acquisition, or an
include registration) and reports each entry by a rule line carrying its
testbench name. -/
theorem c9_dry_run_no_backend :
    ∀ (plans : List ExecutionPlan) (n : Nat),
      ((print_regression plans n).all SimEvent.isConsole = true)
      ∧ (plans.all (fun p =>
          (print_regression plans n).any
            (fun e => e = SimEvent.consoleRule p.tb_name)) = true) := by
  intro plans n
  constructor
  · unfold print_regression
    by_cases hp : plans.isEmpty
    · simp [hp, SimEvent.isConsole]
    · rw [Bool.not_eq_true] at hp
      simp only [hp, Bool.false_eq_true, if_false, List.all_cons, Bool.and_eq_true,
        List.all_eq_true]
      refine ⟨rfl, ?_⟩
      intro e he
      obtain ⟨q, _hq, hqe⟩ := List.mem_flatMap.mp he
      rcases List.mem_cons.mp hqe with hqe | hqe
      · subst hqe; rfl
      · split at hqe <;> simp_all [SimEvent.isConsole]
  · rw [List.all_eq_true]
    intro p hp
    rw [List.any_eq_true]
    refine ⟨SimEvent.consoleRule p.tb_name, ?_, by simp⟩
    unfold print_regression
    have hpe : plans.isEmpty = false := by
      rcases plans with _ | ⟨q, qs⟩
      · simp at hp
      · simp
    simp only [hpe, Bool.false_eq_true, if_false]
    exact List.mem_cons_of_mem _
      (List.mem_flatMap.mpr ⟨p, hp, List.mem_cons_self _ _⟩)

/-- Characterization of `find?`: the found element satisfies the predicate
and everything before it fails it. -/
theorem find?_first {α : Type} {p : α → Bool} :
    ∀ {l : List α} {k : α}, l.find? p = some k →
      p k = true ∧ ∃ pre post, l = pre ++ k :: post ∧ ∀ a ∈ pre, p a = false := by
  intro l
  induction l with
  | nil => intro k h; simp at h
  | cons a as ih =>
    intro k h
    by_cases hpa : p a = true
    · rw [List.find?_cons_of_pos _ hpa] at h
      obtain rfl : a = k := by simpa using h
      exact ⟨hpa, [], as, rfl, by simp⟩
    · rw [List.find?_cons_of_neg _ (by simpa using hpa)] at h
      obtain ⟨hk, pre, post, heq, hpre⟩ := ih h
      refine ⟨hk, a :: pre, post, by simp [heq], ?_⟩
      intro x hx
      rcases List.mem_cons.mp hx with rfl | hx
      · simpa using hpa
      · exact hpre x hx

/-- Counterexample to C3 as stated: a map holding the two illegal keys
`badkey1` and `badkey2` is rejected with an error that names only the
first, although `badkey2` is also outside the legal set. -/
theorem c3_counterexample :
    validate_stages_args [("badkey1", .str "x"), ("badkey2", .str "y")]
        "build" cocotbBuildArgspec
      = .error { key := "badkey1", method_name := "build",
                 allowed := validArgsOf cocotbBuildArgspec }
    ∧ "badkey2" ∉ validArgsOf cocotbBuildArgspec
    ∧ ("badkey1" : String) ≠ "badkey2" := by
  refine ⟨rfl, by decide, by decide⟩

/-- Claim C3 (amended): a map whose keys all lie in the legal argument
set passes; otherwise validation fails with a `ValidationError` naming the
first illegal key in the map's iteration order (every key before it being
legal) and listing the full allowed set in its message. -/
theorem c3_first_illegal_key :
    ∀ (args : List (String × PyVal)) (mname : String) (argspec : List String),
      ((∀ k ∈ args.map Prod.fst, k ∈ validArgsOf argspec) →
        validate_stages_args args mname argspec = .ok ())
      ∧ (∀ e, validate_stages_args args mname argspec = .error e →
          e.method_name = mname ∧ e.allowed = validArgsOf argspec ∧
          e.key ∈ args.map Prod.fst ∧ e.key ∉ validArgsOf argspec ∧
          ∃ pre post, args.map Prod.fst = pre ++ e.key :: post ∧
            ∀ k ∈ pre, k ∈ validArgsOf argspec)
      ∧ ((∃ k ∈ args.map Prod.fst, k ∉ validArgsOf argspec) →
          ∃ e, validate_stages_args args mname argspec = .error e) := by
  intro args mname argspec
  refine ⟨?_, ?_, ?_⟩
  · intro hall
    unfold validate_stages_args
    have : (args.map Prod.fst).find? (fun k => !(validArgsOf argspec).contains k) = none := by
      rw [List.find?_eq_none]
      intro k hk
      simp only [Bool.not_eq_true, Bool.not_eq_true']
      simp [List.contains, List.elem_eq_mem]
      exact hall k hk
    rw [this]
  · intro e he
    unfold validate_stages_args at he
    cases hf : (args.map Prod.fst).find? (fun k => !(validArgsOf argspec).contains k) with
    | none => rw [hf] at he; exact absurd he (by simp)
    | some k =>
      rw [hf] at he
      have hke : e = { key := k, method_name := mname, allowed := validArgsOf argspec } := by
        simpa using he.symm
      obtain ⟨hk, pre, post, heq, hpre⟩ := find?_first hf
      subst hke
      refine ⟨rfl, rfl, ?_, ?_, pre, post, heq, ?_⟩
      · rw [heq]; simp
      · intro hmem
        rw [Bool.not_eq_true', ← Bool.not_eq_true] at hk
        exact hk (by simpa [List.contains, List.elem_eq_mem] using hmem)
      · intro x hx
        have := hpre x hx
        simp only [Bool.not_eq_false] at this
        simpa [List.contains, List.elem_eq_mem] using this
  · intro ⟨k, hk, hnk⟩
    unfold validate_stages_args
    cases hf : (args.map Prod.fst).find? (fun k => !(validArgsOf argspec).contains k) with
    | none =>
      rw [List.find?_eq_none] at hf
      exact absurd (by simpa [List.contains, List.elem_eq_mem] using hf k hk) (by simpa using hnk)
    | some k' => exact ⟨_, rfl⟩

/-- Witness for the amended C3: the legal build key `waves` passes
validation against the build-stage argspec. -/
theorem c3_witness :
    validate_stages_args [("waves", .bool true)] "build" cocotbBuildArgspec = .ok () :=
  (c3_first_illegal_key [("waves", .bool true)] "build" cocotbBuildArgspec).1 (by decide)

/-- Every testbench with some unregistered index appears in the report,
mapped to the complete filtered list of its unregistered indices. -/
theorem mem_unregisteredReport {srcs : List (Int × String)}
    {tbs : List (String × Testbench)} {name : String} {tb : Testbench}
    (h : (name, tb) ∈ tbs) (hex : ∃ i ∈ tb.srcs, i ∉ srcs.map Prod.fst) :
    (name, tb.srcs.filter (fun i => !(srcs.map Prod.fst).contains i))
      ∈ unregisteredReport srcs tbs := by
  unfold unregisteredReport
  refine List.mem_filterMap.mpr ⟨(name, tb), h, ?_⟩
  have hne : tb.srcs.filter (fun i => !(srcs.map Prod.fst).contains i) ≠ [] := by
    obtain ⟨i, hi, hni⟩ := hex
    intro hnil
    have hmem : i ∈ tb.srcs.filter (fun i => !(srcs.map Prod.fst).contains i) :=
      List.mem_filter.mpr ⟨hi, by simpa [List.contains, List.elem_eq_mem] using hni⟩
    rw [hnil] at hmem
    simp at hmem
  rw [if_neg (by simpa [List.isEmpty_iff] using hne)]

/-- An empty report forces every index of every testbench to be
registered. -/
theorem unregisteredReport_eq_nil {srcs : List (Int × String)}
    {tbs : List (String × Testbench)} (h : unregisteredReport srcs tbs = [])
    {name : String} {tb : Testbench} (hmem : (name, tb) ∈ tbs) :
    ∀ i ∈ tb.srcs, i ∈ srcs.map Prod.fst := by
  intro i hi
  unfold unregisteredReport at h
  rw [List.filterMap_eq_nil_iff] at h
  have := h (name, tb) hmem
  by_cases hc : (tb.srcs.filter (fun i => !(srcs.map Prod.fst).contains i)).isEmpty
  · have hf : tb.srcs.filter (fun i => !(srcs.map Prod.fst).contains i) = [] := by
      rwa [List.isEmpty_iff] at hc
    by_contra hni
    have : i ∈ tb.srcs.filter (fun i => !(srcs.map Prod.fst).contains i) :=
      List.mem_filter.mpr ⟨hi, by simpa [List.contains, List.elem_eq_mem] using hni⟩
    rw [hf] at this
    simp at this
  · rw [if_neg hc] at this
    simp at this

/-- A successful path check leaves no missing path and an empty
unregistered-index report. -/
theorem validate_paths_check_ok {fs : FileSystem} {srcs : List (Int × String)}
    {tbs : List (String × Testbench)} {incl : List String}
    (h : validate_paths_check fs srcs tbs incl = .ok ()) :
    nonExistentPaths fs srcs tbs incl = [] ∧ unregisteredReport srcs tbs = [] := by
  unfold validate_paths_check at h
  by_cases h1 : (nonExistentPaths fs srcs tbs incl).isEmpty
  · by_cases h2 : (unregisteredReport srcs tbs).isEmpty
    · exact ⟨by rwa [List.isEmpty_iff] at h1, by rwa [List.isEmpty_iff] at h2⟩
    · rw [Bool.not_eq_true] at h2
      simp [h1, h2] at h
  · rw [Bool.not_eq_true] at h1
    simp [h1] at h

/-- A successful load implies the path check passed and the constructed
runbook carries the document's testbench and source tables. -/
theorem load_runbook_ok {fs : FileSystem} {title sim : String}
    {bargs targs : List (String × PyVal)} {srcs : List (Int × String)}
    {tbs : List (String × Testbench)} {incl : List String}
    {bspec tspec : List String} {rb : Runbook}
    (h : load_runbook fs title sim bargs targs srcs tbs incl bspec tspec = .ok rb) :
    validate_paths_check fs srcs tbs incl = .ok () ∧ rb.tbs = tbs ∧ rb.srcs = srcs := by
  unfold load_runbook at h
  cases h1 : validate_paths_check fs srcs tbs incl with
  | error e => rw [h1] at h; exact absurd h (by simp)
  | ok u =>
    rw [h1] at h
    cases h2 : validate_stages_args targs "test" tspec with
    | error e => rw [h2] at h; exact absurd h (by simp)
    | ok u2 =>
      rw [h2] at h
      cases h3 : validate_stages_args bargs "build" bspec with
      | error e => rw [h3] at h; exact absurd h (by simp)
      | ok u3 =>
        rw [h3] at h
        cases h4 : validateTbsArgs bspec tspec tbs with
        | error e => rw [h4] at h; exact absurd h (by simp)
        | ok u4 =>
          rw [h4] at h
          have := (Except.ok.injEq _ _).mp h
          cases u
          exact ⟨by simp [h1], by rw [← this], by rw [← this]⟩

/-- Counterexample to C2 as stated: in a document whose testbench
directory does not exist and whose testbench references the unregistered
source index 2, validation fails with the non-existent-paths error, not
with the testbench-to-missing-indices report the claim promises. -/
theorem c2_counterexample :
    validate_paths_check
      { isFile := fun _ => true, isDir := fun _ => false, pathExists := fun _ => true }
      [(0, "/src0")] [("tbA", { path := "/dir_tbA", srcs := [2] })] []
      = .error (.nonExistent ["/dir_tbA"])
    ∧ unregisteredReport [(0, "/src0")] [("tbA", { path := "/dir_tbA", srcs := [2] })]
      = [("tbA", [2])] := ⟨rfl, rfl⟩

/-- Claim C2 (amended): every runbook produced by the load pipeline has
all testbench source indices registered in its source table; a document
with unregistered references never loads; when additionally all referenced
paths exist, the failure is the `ValidationError` carrying the report that
maps each offending testbench to the complete list of its unregistered
indices (when some path is also missing, the non-existent-paths
`ValidationError` is raised first). -/
theorem c2_source_index_integrity :
    ∀ (fs : FileSystem) (title sim : String)
      (bargs targs : List (String × PyVal)) (srcs : List (Int × String))
      (tbs : List (String × Testbench)) (incl : List String)
      (bspec tspec : List String),
      (∀ rb, load_runbook fs title sim bargs targs srcs tbs incl bspec tspec = .ok rb →
        ∀ p ∈ rb.tbs, ∀ i ∈ p.2.srcs, i ∈ rb.srcs.map Prod.fst)
      ∧ ((∃ p ∈ tbs, ∃ i ∈ p.2.srcs, i ∉ srcs.map Prod.fst) →
          ∀ rb, load_runbook fs title sim bargs targs srcs tbs incl bspec tspec ≠ .ok rb)
      ∧ (nonExistentPaths fs srcs tbs incl = [] →
          (∃ p ∈ tbs, ∃ i ∈ p.2.srcs, i ∉ srcs.map Prod.fst) →
          validate_paths_check fs srcs tbs incl
            = .error (.unregistered (unregisteredReport srcs tbs)))
      ∧ (∀ name tb, (name, tb) ∈ tbs → (∃ i ∈ tb.srcs, i ∉ srcs.map Prod.fst) →
          (name, tb.srcs.filter (fun i => !(srcs.map Prod.fst).contains i))
            ∈ unregisteredReport srcs tbs) := by
  intro fs title sim bargs targs srcs tbs incl bspec tspec
  have hrep : (∃ p ∈ tbs, ∃ i ∈ p.2.srcs, i ∉ srcs.map Prod.fst) →
      unregisteredReport srcs tbs ≠ [] := by
    rintro ⟨p, hp, hex⟩
    exact List.ne_nil_of_mem (mem_unregisteredReport hp hex)
  refine ⟨?_, ?_, ?_, fun name tb h hex => mem_unregisteredReport h hex⟩
  · intro rb hok p hp i hi
    obtain ⟨hpc, htbs, hsrcs⟩ := load_runbook_ok hok
    rw [htbs] at hp
    rw [hsrcs]
    exact unregisteredReport_eq_nil (validate_paths_check_ok hpc).2 hp i hi
  · intro hex rb hok
    exact hrep hex (validate_paths_check_ok (load_runbook_ok hok).1).2
  · intro hne hex
    unfold validate_paths_check
    rw [hne]
    rw [if_neg (by simp)]
    rw [if_pos (by simpa [List.isEmpty_iff] using hrep hex)]

/-- Witness for the amended C2: with all paths existing and testbench
`tbA` referencing `[0, 2]` against a source table containing only index 0,
validation fails with the unregistered-index report. -/
theorem c2_witness :
    validate_paths_check
      { isFile := fun _ => true, isDir := fun _ => true, pathExists := fun _ => true }
      [(0, "/src0")] [("tbA", { path := "/dir_tbA", srcs := [0, 2] })] []
      = .error (.unregistered (unregisteredReport [(0, "/src0")]
          [("tbA", { path := "/dir_tbA", srcs := [0, 2] })])) :=
  (c2_source_index_integrity
    { isFile := fun _ => true, isDir := fun _ => true, pathExists := fun _ => true }
    "" "" [] [] [(0, "/src0")] [("tbA", { path := "/dir_tbA", srcs := [0, 2] })]
    [] [] []).2.2.1 rfl
    ⟨("tbA", { path := "/dir_tbA", srcs := [0, 2] }), by simp, 2, by simp, by simp⟩

/-- Claim C1 (code evaluation): `build_plan` on a runbook containing only
`tbA` with the explicit unknown name `nonexistent` returns an empty plan
without any error, for every discovery collaborator: the unknown name is
silently dropped and no NameError-kind failure is raised. -/
theorem c1_unknown_name_not_an_error :
    ∀ (discover : Testbench → Except String (List String)),
      build_plan rbC1 { tb_names := ["nonexistent"] } discover = .ok []
      ∧ rbC1.containsTb "nonexistent" = false
      ∧ rbC1.tbs.map Prod.fst = ["tbA"] := by
  intro d
  exact ⟨rfl, rfl, rfl⟩

/-- Claim C4 (code evaluation): `run_regression` on a plan entry whose
expanded test list is empty still invokes the backend build operation and
the backend test operation (with an empty testcase list) instead of
skipping the entry. -/
theorem c4_empty_entry_not_skipped :
    expandTests planC4.tests 1 = []
    ∧ run_regression [planC4] 1 "sim_build"
      = .ok [SimEvent.loadIncludes rbC4, SimEvent.getRunner "icarus",
             SimEvent.build [] "top" true [],
             SimEvent.test "top" "verilog" "tb_top" []
               (.path "sim_build/tbA_results.xml") []]
    ∧ ([SimEvent.loadIncludes rbC4, SimEvent.getRunner "icarus",
        SimEvent.build [] "top" true [],
        SimEvent.test "top" "verilog" "tb_top" []
          (.path "sim_build/tbA_results.xml") []].any SimEvent.isBuild = true)
    ∧ ([SimEvent.loadIncludes rbC4, SimEvent.getRunner "icarus",
        SimEvent.build [] "top" true [],
        SimEvent.test "top" "verilog" "tb_top" []
          (.path "sim_build/tbA_results.xml") []].any SimEvent.isTest = true) :=
  ⟨rfl, rfl, rfl, rfl⟩

/-- Witness for C7: the trace of `run_regression` on a single entry with
test list `[t1]` and repetition count 2 carries the testcase list
`[t1, t1]`. -/
theorem c7_witness :
    List.filterMap SimEvent.testcaseOf
        [SimEvent.loadIncludes rbC7, SimEvent.getRunner "icarus",
         SimEvent.build [] "top" true [],
         SimEvent.test "top" "verilog" "tb_top" ["t1", "t1"]
           (.path "bd/tbA_results.xml") []]
      = [planC7].map (fun p => expandTests p.tests 2) :=
  c7_repetition_expansion.2.2.1 [planC7] 2 "bd" _ rfl

end Cocoman
